import Mathlib

/-!
Verification development for the token state tracker and market-cap monitor
implemented in `bot.py`.  Every definition below is a shallow embedding of a
function (or a control-flow path) of the source; Python floats are modelled
as rationals, Python `None` as `Option.none`, and Python exceptions as
explicit error values.
-/

/-! ## Token classifier (bot.py lines 18-21, 295-298)

The three regular expressions are embedded as explicit left-to-right,
non-overlapping scanners over the character list of the message, which is
exactly what `re.findall` computes for these patterns.  The word alphabet
is the ASCII range of Python `\w` (letters, digits, underscore), which is
the alphabet all token shapes are drawn from. -/

/-- Hexadecimal digit, the character class of `ADDRESS_REGEX`. -/
def isHexDigitCh (c : Char) : Bool :=
  c.isDigit || (decide ('a' ≤ c) && decide (c ≤ 'f')) || (decide ('A' ≤ c) && decide (c ≤ 'F'))

/-- Alphanumeric character, the character class of `TICKER_REGEX`. -/
def isTickerCh (c : Char) : Bool :=
  c.isAlphanum

/-- Base58 alphabet of `BASE58_MINT_REGEX`: digits and letters without 0, O, I, l. -/
def isBase58Ch (c : Char) : Bool :=
  (decide ('1' ≤ c) && decide (c ≤ '9')) ||
  (decide ('A' ≤ c) && decide (c ≤ 'H')) ||
  (decide ('J' ≤ c) && decide (c ≤ 'N')) ||
  (decide ('P' ≤ c) && decide (c ≤ 'Z')) ||
  (decide ('a' ≤ c) && decide (c ≤ 'k')) ||
  (decide ('m' ≤ c) && decide (c ≤ 'z'))

/-- Word character in the sense of the regex `\b` boundary (ASCII `\w`). -/
def isWordCh (c : Char) : Bool :=
  c.isAlphanum || c = '_'

/-- Try to match `ADDRESS_REGEX` (`0x` followed by exactly 40 hex digits) at the
head of the character list; on success return the match and the remainder. -/
def matchAddressAt (cs : List Char) : Option (String × List Char) :=
  match cs with
  | '0' :: 'x' :: rest =>
    let body := rest.take 40
    if body.length = 40 && body.all isHexDigitCh then
      some (String.mk ('0' :: 'x' :: body), rest.drop 40)
    else
      none
  | _ => none

/-- Left-to-right non-overlapping scan for `ADDRESS_REGEX`, as `re.findall` does. -/
def scanAddresses : Nat → List Char → List String
  | 0, _ => []
  | _, [] => []
  | fuel + 1, c :: rest =>
    match matchAddressAt (c :: rest) with
    | some (tok, rem) => tok :: scanAddresses fuel rem
    | none => scanAddresses fuel rest

/-- `ADDRESS_REGEX.findall(message)`. -/
def findAddresses (s : String) : List String :=
  scanAddresses (s.data.length + 1) s.data

/-- Try to match `TICKER_REGEX` (`$` followed by 2 to 10 alphanumerics, greedy)
at the head of the character list. -/
def matchTickerAt (cs : List Char) : Option (String × List Char) :=
  match cs with
  | '$' :: rest =>
    let body := (rest.takeWhile isTickerCh).take 10
    if 2 ≤ body.length then
      some (String.mk ('$' :: body), rest.drop body.length)
    else
      none
  | _ => none

/-- Left-to-right non-overlapping scan for `TICKER_REGEX`. -/
def scanTickers : Nat → List Char → List String
  | 0, _ => []
  | _, [] => []
  | fuel + 1, c :: rest =>
    match matchTickerAt (c :: rest) with
    | some (tok, rem) => tok :: scanTickers fuel rem
    | none => scanTickers fuel rest

/-- `TICKER_REGEX.findall(message)` (matches keep their leading `$`). -/
def findTickers (s : String) : List String :=
  scanTickers (s.data.length + 1) s.data

/-- Left-to-right scan for `BASE58_MINT_REGEX`.  Because every base58 character
is a word character, a `\b`-delimited match is exactly a maximal run of word
characters that consists entirely of base58 characters and has length 32-50. -/
def scanMints : Nat → List Char → List String
  | 0, _ => []
  | _, [] => []
  | fuel + 1, c :: rest =>
    if isWordCh c then
      let run := (c :: rest).takeWhile isWordCh
      let rem := (c :: rest).dropWhile isWordCh
      (if 32 ≤ run.length && run.length ≤ 50 && run.all isBase58Ch then
        [String.mk run] else []) ++ scanMints fuel rem
    else
      scanMints fuel rest

/-- `BASE58_MINT_REGEX.findall(message)`. -/
def findMints (s : String) : List String :=
  scanMints (s.data.length + 1) s.data

/-- The candidate list built by the handler (bot.py lines 295-298):
`addresses + [t[1:] for t in tickers] + base58_mints`. -/
def extractTokens (s : String) : List String :=
  findAddresses s ++ (findTickers s).map (fun t => String.mk (t.data.drop 1)) ++ findMints s

/-! ## Market-cap fetcher: pair selection and market-cap parsing
(bot.py lines 90-135)

A JSON scalar reaching `float(...)` / `or` is modelled by the two attributes
the code consults: its Python truthiness and the result of `float(...)` on it
(`none` when `float` would raise).  Numbers are kept explicitly so that the
liquidity ordering is visible. -/

/-- A Python value as used by the fetcher: a number, or any other value
abstracted to its truthiness and its `float(...)` parse. -/
inductive PyVal where
  | vnum (q : ℚ)
  | vraw (truthy : Bool) (parsed : Option ℚ)
deriving DecidableEq

/-- Python truthiness of a `PyVal`. -/
def pyTruthy : PyVal → Bool
  | .vnum q => decide (q ≠ 0)
  | .vraw t _ => t

/-- `float(v)`: `some` on success, `none` when Python would raise. -/
def pyFloat : PyVal → Option ℚ
  | .vnum q => some q
  | .vraw _ p => p

/-- A trading-pair record, restricted to the fields the fetcher reads.
A field holds `none` when the key is absent or its JSON value is `null`
(both reach the code as Python `None`). -/
structure Pair where
  liquidity_usd : Option PyVal
  marketCap : Option PyVal
  fdv : Option PyVal
  url : Option String
deriving DecidableEq

/-- bot.py lines 94-98: `pair.get("liquidity", {}).get("usd") or 0`, then
`float(...)` with `TypeError`/`ValueError` mapped to `0.0`. -/
def liqValue (p : Pair) : ℚ :=
  match p.liquidity_usd with
  | none => 0
  | some v => if pyTruthy v then (pyFloat v).getD 0 else 0

/-- The selection fold of `_pick_best_pair` (bot.py lines 90-102): `best` and
`best_liquidity` start at `None` and `-1.0`, a pair replaces the best exactly
when its liquidity value is strictly greater. -/
def pickAux : Option Pair → ℚ → List Pair → Option Pair
  | best, _, [] => best
  | best, bl, p :: rest =>
    if bl < liqValue p then pickAux (some p) (liqValue p) rest
    else pickAux best bl rest

/-- `_pick_best_pair(pairs)`. -/
def pickBestPair (ps : List Pair) : Option Pair :=
  pickAux none (-1) ps

/-- `_parse_market_cap(pair)` (bot.py lines 105-114): read `marketCap`, fall
back to `fdv` only when `marketCap` is `None`, then `float(...)` with
failures mapped to `None`. -/
def parseMarketCap (p : Pair) : Option ℚ :=
  let mcap := match p.marketCap with
    | none => p.fdv
    | some v => some v
  match mcap with
  | none => none
  | some v => pyFloat v

/-- The market-cap extraction rule as the spec words it: the `marketCap`
field if present and numeric, else the `fdv` field if present and numeric,
else null.  Stated for comparison with `parseMarketCap`. -/
def specParseMarketCap (p : Pair) : Option ℚ :=
  match p.marketCap.bind pyFloat with
  | some q => some q
  | none => p.fdv.bind pyFloat

/-- The tail of `_fetch_market_cap_for_address` / `_fetch_market_cap_for_ticker`
(bot.py lines 120-124, 131-135) applied to the decoded `pairs` array.  When the
selected pair is the empty dict the code also returns `(None, None)` through
its falsiness test, which coincides with parsing the all-absent pair. -/
def fetchFromPairs (pairs : List Pair) : Option ℚ × Option String :=
  match pickBestPair pairs with
  | none => (none, none)
  | some best => (parseMarketCap best, best.url)

/-! ## Active entry, percentage formatting and the locked update step
(bot.py lines 28-29, 144-158, 161-213, 316-327)

Entries are modelled in the field shape the code itself creates: every key
present, `null` fields as `Option.none`.  The `TypeError` that Python raises
when `market_cap > highest_market_cap` compares a float with `None` is made
explicit in the result type, carrying the entry as mutated up to that point. -/

/-- The active entry record, with the exact fields the code writes. -/
structure Entry where
  token : String
  time_posted : String
  initial_market_cap : Option ℚ
  highest_market_cap : Option ℚ
  current_market_cap : Option ℚ
  current_percentage : String
  highest_percent_increase : ℚ
  reached_50 : Bool
  last_checked : Option String
  pair_url : Option String
deriving DecidableEq

/-- Python `round(x, 4)`: round to four decimal places.  The tie-breaking rule
is immaterial here because specification and code apply the same rounding. -/
def round4 (q : ℚ) : ℚ :=
  ((round (q * 10000) : ℤ) : ℚ) / 10000

/-- Two-digit decimal rendering of a natural number below 100. -/
def pad2 (k : ℕ) : String :=
  if k < 10 then "0" ++ toString k else toString k

/-- `_format_percent(value)` (bot.py lines 28-29): the Python format
`f"{value:+.2f}%"` - explicit sign of the value, magnitude rounded to two
decimal places. -/
def formatPercent (q : ℚ) : String :=
  let sgn := if q < 0 then "-" else "+"
  let m := (round (|q| * 100) : ℤ).toNat
  sgn ++ toString (m / 100) ++ "." ++ pad2 (m % 100) ++ "%"

/-- The fresh entry dict built by the handler (bot.py lines 316-327) and the
static-token startup path (lines 253-264). -/
def freshEntry (tok posted : String) : Entry :=
  { token := tok
    time_posted := posted
    initial_market_cap := none
    highest_market_cap := none
    current_market_cap := none
    current_percentage := formatPercent 0
    highest_percent_increase := 0
    reached_50 := false
    last_checked := none
    pair_url := none }

/-- `_refresh_entry_market_cap` (bot.py lines 144-158) applied to a fetch
result: a `None` market cap leaves the entry untouched, otherwise all metric
fields are initialized from the observation; `pair_url` is only written when
the returned url is truthy (a non-empty string). -/
def refreshEntryMarketCap (e : Entry) (mc : Option ℚ) (url : Option String) (now : String) : Entry :=
  match mc with
  | none => e
  | some m =>
    { e with
      initial_market_cap := some m
      highest_market_cap := some m
      current_market_cap := some m
      current_percentage := formatPercent 0
      highest_percent_increase := 0
      reached_50 := false
      last_checked := some now
      pair_url := match url with
        | some u => if u = "" then e.pair_url else some u
        | none => e.pair_url }

/-- Result of the locked update step: either the updated entry, or the
`TypeError` Python raises at `market_cap > highest_market_cap` when
`highest_market_cap` is `None`, carrying the entry as mutated so far. -/
inductive ApplyResult where
  | ok (e : Entry)
  | typeErr (partialEntry : Entry)
deriving DecidableEq

/-- The body of the locked update in `market_cap_monitor`
(bot.py lines 181-211), run after the token identity re-check succeeded.
Statement order follows the source: the local `initial_market_cap` is
defaulted to the observation and written back before the comparison
`market_cap > highest_market_cap`, which raises when the stored highest is
`None`; percentages use the local (already defaulted) initial value, with
zero as the result whenever that value is falsy (zero). -/
def applyObservation (e : Entry) (mc : ℚ) (url : Option String) (now : String) : ApplyResult :=
  let i0 := e.initial_market_cap
  let h0 := e.highest_market_cap
  let i : ℚ := i0.getD mc
  let e1 := match i0 with
    | none => { e with initial_market_cap := some mc }
    | some _ => e
  match h0 with
  | none => .typeErr e1
  | some h =>
    let hNew := if h < mc then mc else h
    let e2 := if h < mc then { e1 with highest_market_cap := some mc } else e1
    let currentPercent := round4 (if i ≠ 0 then ((mc - i) / i) * 100 else 0)
    let highestPercent := round4 (if i ≠ 0 then ((hNew - i) / i) * 100 else 0)
    .ok { e2 with
      current_market_cap := some mc
      current_percentage := formatPercent currentPercent
      highest_percent_increase := max e.highest_percent_increase highestPercent
      reached_50 := decide (50 ≤ highestPercent)
      last_checked := some now
      pair_url := match url with
        | some u => if u = "" then e2.pair_url else some u
        | none => e2.pair_url }

/-- Fold of `applyObservation` over a list of observations
`(market_cap, pair_url, timestamp)`; `none` when some step raised. -/
def runObservations : Entry → List (ℚ × Option String × String) → Option Entry
  | e, [] => some e
  | e, (mc, url, now) :: rest =>
    match applyObservation e mc url now with
    | .ok e2 => runObservations e2 rest
    | .typeErr _ => none

/-! ## One monitor cycle (bot.py lines 165-212) -/

/-- State shared between the monitor and the handler: the in-memory active
entry and the durable current-state file (as the last entry written to it). -/
structure MonState where
  entry : Option Entry
  fileCur : Option Entry
deriving DecidableEq

/-- Outcome of the unlocked `fetch_market_cap` call: the call can raise
(network error, timeout, malformed body) or return a pair of optionals. -/
inductive FetchOutcome where
  | raised
  | returned (mc : Option ℚ) (url : Option String)
deriving DecidableEq

/-- One cycle of `market_cap_monitor` after the sleep (bot.py lines 167-212).
`Except.error` means an exception escaped the loop body, terminating the
monitor task; `Except.ok` means the cycle finished and the loop continues.
The fetch outcome is supplied as a parameter.  The sequential model re-reads
the same entry after the fetch, so the identity re-check is written exactly
as in the source and succeeds. -/
def monitorCycle (st : MonState) (outcome : FetchOutcome) (now : String) : Except MonState MonState :=
  match st.entry with
  | none => .ok st
  | some e =>
    if e.token = "" then .ok st
    else
      match outcome with
      | .raised => .error st
      | .returned none _ => .ok st
      | .returned (some mc) url =>
        if e.token ≠ e.token then .ok st
        else
          match applyObservation e mc url now with
          | .typeErr part => .error { st with entry := some part }
          | .ok e2 => .ok { entry := some e2, fileCur := some e2 }

/-! ## Ingestion: the per-message token loop (bot.py lines 309-330)

The fetch inside `_refresh_entry_market_cap` can raise exactly as in the
monitor path.  In the handler loop such an exception escapes the locked loop
after the superseded entry was archived (line 315) but before the new entry
was installed (line 329), and is caught only by the per-message handler, so
the remaining candidates of that message are dropped.  `Except.error`
carries the state at that abort. -/

/-- State touched by the handler loop: the active entry and the history log. -/
structure IngestState where
  current : Option Entry
  history : List Entry
deriving DecidableEq

/-- The body of the handler loop for one candidate token (bot.py lines
310-330): skip when it equals the active token; otherwise archive the active
entry (if any), build the fresh entry and run its initial fetch.  A raising
fetch aborts with the history already extended and the superseded entry
still installed; otherwise the initialized entry is installed and persisted. -/
def processToken (fetch : String → FetchOutcome) (posted now : String)
    (st : IngestState) (tok : String) : Except IngestState IngestState :=
  match st.current with
  | some cur =>
    if cur.token = tok then .ok st
    else
      match fetch tok with
      | .raised => .error { current := some cur, history := st.history ++ [cur] }
      | .returned mc url =>
        .ok { current := some (refreshEntryMarketCap (freshEntry tok posted) mc url now)
              history := st.history ++ [cur] }
  | none =>
    match fetch tok with
    | .raised => .error st
    | .returned mc url =>
      .ok { current := some (refreshEntryMarketCap (freshEntry tok posted) mc url now)
            history := st.history }

/-- The handler loop over the candidates of a message, in order: an
exception aborts the remaining candidates (the per-message handler catches
it, so the aborted state is the state the next message starts from). -/
def processTokens (fetch : String → FetchOutcome) (posted now : String) :
    IngestState → List String → Except IngestState IngestState
  | st, [] => .ok st
  | st, t :: rest =>
    match processToken fetch posted now st t with
    | .ok st2 => processTokens fetch posted now st2 rest
    | .error st2 => .error st2

/-! ## Lock discipline (bot.py lines 165-177, 309-330)

The lock-relevant event sequences of the two paths, read off the source
line by line: `acquire`/`release` for entering and leaving
`async with results_lock`, `fetchCall` for every `fetch_market_cap`
invocation (including the one inside `_refresh_entry_market_cap`). -/

/-- Lock-relevant events. -/
inductive LockEvent where
  | acquire
  | release
  | fetchCall
deriving DecidableEq

/-- Event trace of one monitor cycle: a locked read (lines 167-168), then -
if an entry with a non-empty token exists - the unlocked fetch (line 174),
then - if the fetch returned a market cap - the locked update
(lines 177-212). -/
def monitorCycleTrace (hasEntry hasToken fetchReturnedCap : Bool) : List LockEvent :=
  [.acquire, .release] ++
    (if hasEntry && hasToken then
      [.fetchCall] ++ (if fetchReturnedCap then [.acquire, .release] else [])
    else [])

/-- Event trace of the handler token loop (lines 309-330): one `async with`
block containing one `_refresh_entry_market_cap` fetch per non-skipped
candidate. -/
def handlerTrace (createdEntries : Nat) : List LockEvent :=
  [.acquire] ++ List.replicate createdEntries .fetchCall ++ [.release]

/-- Scan a trace with the current lock depth and report whether some fetch
happens while the lock is held. -/
def fetchWhileLockedAux : Nat → List LockEvent → Bool
  | _, [] => false
  | d, .acquire :: r => fetchWhileLockedAux (d + 1) r
  | d, .release :: r => fetchWhileLockedAux (d - 1) r
  | d, .fetchCall :: r => decide (0 < d) || fetchWhileLockedAux d r

/-- Whether a trace performs a network fetch while holding the shared lock. -/
def fetchWhileLocked (tr : List LockEvent) : Bool :=
  fetchWhileLockedAux 0 tr

/-! ## Durable-file loaders (bot.py lines 32-48, 55-69)

File contents are modelled as missing, unparsable, or a parsed JSON value.
The try-blocks are embedded in an `Except`, with every site where Python
would raise made explicit, and the outer functions catch every error. -/

/-- A JSON value. -/
inductive Json where
  | null
  | bool (b : Bool)
  | num (q : ℚ)
  | str (s : String)
  | arr (xs : List Json)
  | obj (kvs : List (String × Json))

/-- Python truthiness of a decoded JSON value. -/
def jTruthy : Json → Bool
  | .null => false
  | .bool b => b
  | .num q => decide (q ≠ 0)
  | .str s => decide (s ≠ "")
  | .arr xs => !xs.isEmpty
  | .obj kvs => !kvs.isEmpty

/-- `d.get(k)` on a decoded JSON object (keys of a decoded object are unique). -/
def jGet (kvs : List (String × Json)) (k : String) : Option Json :=
  match kvs.find? (fun kv => kv.1 = k) with
  | some kv => some kv.2
  | none => none

/-- `v[-1]`: last element of a list, last character of a string; everything
else raises (`TypeError` for numbers and booleans, `KeyError` for dicts). -/
def pyLastItem : Json → Except Unit Json
  | .arr xs =>
    match xs.getLast? with
    | some x => .ok x
    | none => .error ()
  | .str s =>
    match s.data.getLast? with
    | some c => .ok (.str (String.mk [c]))
    | none => .error ()
  | _ => .error ()

/-- `items.get(key)` where `key` is an arbitrary decoded value: string keys
look up normally, other hashable values match no string key, unhashable
values (lists, dicts) raise `TypeError`. -/
def pyDictGet (items : List (String × Json)) (key : Json) : Except Unit (Option Json) :=
  match key with
  | .str s => .ok (jGet items s)
  | .arr _ => .error ()
  | .obj _ => .error ()
  | _ => .ok none

/-- The try-block body of `_load_current` (bot.py lines 36-45). -/
def loadCurrentBody (data : Json) : Except Unit (Option Json) :=
  match data with
  | .obj kvs =>
    match jGet kvs "items" with
    | some (.obj items) =>
      let tokens := match jGet kvs "tokens" with
        | some v => if jTruthy v then v else .arr []
        | none => .arr []
      if jTruthy tokens then
        match pyLastItem tokens with
        | .error _ => .error ()
        | .ok key => pyDictGet items key
      else
        .ok (items.head?.map (fun kv => kv.2))
    | _ =>
      if (jGet kvs "token").isSome then .ok (some (.obj kvs)) else .ok none
  | _ => .ok none

/-- Durable file contents as seen by a loader. -/
inductive FileContent where
  | missing
  | unparsable
  | parsed (j : Json)

/-- `_load_current(path)` (bot.py lines 32-48): `None` for a missing file,
the body result otherwise, with every raised exception caught to `None`. -/
def loadCurrent : FileContent → Option Json
  | .missing => none
  | .unparsable => none
  | .parsed j =>
    match loadCurrentBody j with
    | .error _ => none
    | .ok r => r

/-- The shape dispatch of `_load_history` (bot.py lines 59-66): a list is
returned as is, a dict is flattened from its `items` or wrapped if it has a
`token` key; `none` marks the fall-through to `return []`. -/
def loadHistoryBody (data : Json) : Option (List Json) :=
  match data with
  | .arr xs => some xs
  | .obj kvs =>
    match jGet kvs "items" with
    | some (.obj items) => some (items.map (fun kv => kv.2))
    | _ => if (jGet kvs "token").isSome then some [.obj kvs] else none
  | _ => none

/-- `_load_history(path)` (bot.py lines 55-69). -/
def loadHistory : FileContent → List Json
  | .missing => []
  | .unparsable => []
  | .parsed j => (loadHistoryBody j).getD []

/-- `_append_history(path, entry)` (bot.py lines 72-75) on a well-formed
history file: load, append, write back. -/
def appendHistory (hist : List Json) (entry : Json) : List Json :=
  hist ++ [entry]

/-! ## Derived notions used by the invariants -/

/-- The percentage-increase-at-highest that the monitor computes
(bot.py lines 199-204), as a function of the initial and highest values. -/
def pctAtHighest (i h : ℚ) : ℚ :=
  round4 (if i ≠ 0 then ((h - i) / i) * 100 else 0)

/-- Consistency invariant linking the metric fields of an entry, established
by `refreshEntryMarketCap` and preserved by `applyObservation`. -/
def EntryInv (e : Entry) : Prop :=
  ∃ i h, e.initial_market_cap = some i ∧ e.highest_market_cap = some h ∧ i ≤ h ∧
    (0 < i → e.highest_percent_increase = pctAtHighest i h ∧
      e.reached_50 = decide (50 ≤ pctAtHighest i h)) ∧
    (i ≤ 0 → e.highest_percent_increase = 0 ∧ e.reached_50 = false)

/-! ## Helper lemmas -/

theorem round_mono_rat {a b : ℚ} (hab : a ≤ b) : round a ≤ round b := by
  rw [round_eq, round_eq]
  exact Int.floor_mono (by linarith)

theorem round4_mono {a b : ℚ} (hab : a ≤ b) : round4 a ≤ round4 b := by
  unfold round4
  have h1 : round (a * 10000) ≤ round (b * 10000) :=
    round_mono_rat (by nlinarith)
  have h2 : ((round (a * 10000) : ℤ) : ℚ) ≤ ((round (b * 10000) : ℤ) : ℚ) :=
    Int.cast_le.mpr h1
  linarith

theorem round4_zero : round4 0 = 0 := by
  simp [round4]

theorem round4_nonpos {a : ℚ} (ha : a ≤ 0) : round4 a ≤ 0 := by
  have := round4_mono ha
  rwa [round4_zero] at this

theorem pctAtHighest_self (i : ℚ) : pctAtHighest i i = 0 := by
  by_cases hi : i = 0 <;> simp [pctAtHighest, hi, round4_zero]

theorem pctAtHighest_mono {i : ℚ} (hi : 0 < i) {h1 h2 : ℚ} (hh : h1 ≤ h2) :
    pctAtHighest i h1 ≤ pctAtHighest i h2 := by
  unfold pctAtHighest
  rw [if_pos hi.ne', if_pos hi.ne']
  apply round4_mono
  have hd : (h1 - i) / i ≤ (h2 - i) / i :=
    (div_le_div_iff_of_pos_right hi).mpr (by linarith)
  linarith

theorem pctAtHighest_nonpos {i h : ℚ} (hi : i ≤ 0) (hih : i ≤ h) :
    pctAtHighest i h ≤ 0 := by
  unfold pctAtHighest
  rcases lt_or_eq_of_le hi with hlt | heq
  · rw [if_pos hlt.ne]
    apply round4_nonpos
    have hd : (h - i) / i ≤ 0 :=
      div_nonpos_iff.mpr (Or.inl ⟨by linarith, le_of_lt hlt⟩)
    linarith
  · rw [if_neg (by simp [heq.symm] : ¬(i ≠ 0))]
    exact le_of_eq round4_zero

theorem formatPercent_shape (q : ℚ) :
    ∃ (b : Bool) (n f : ℕ), f < 100 ∧
      formatPercent q = (if b then "-" else "+") ++ toString n ++ "." ++ pad2 f ++ "%" := by
  refine ⟨decide (q < 0), (round (|q| * 100) : ℤ).toNat / 100,
    (round (|q| * 100) : ℤ).toNat % 100, Nat.mod_lt _ (by norm_num), ?_⟩
  by_cases hq : q < 0 <;> simp [formatPercent, hq]

/-- The locked update on an entry whose `initial_market_cap` and
`highest_market_cap` are both set: it completes without error and its result
is the explicit field-by-field update of the source. -/
theorem applyObservation_ok (e : Entry) (i h mc : ℚ) (url : Option String) (now : String)
    (hInit : e.initial_market_cap = some i) (hHigh : e.highest_market_cap = some h) :
    applyObservation e mc url now = .ok
      { e with
        highest_market_cap := some (if h < mc then mc else h)
        current_market_cap := some mc
        current_percentage := formatPercent (round4 (if i ≠ 0 then ((mc - i) / i) * 100 else 0))
        highest_percent_increase := max e.highest_percent_increase
          (pctAtHighest i (if h < mc then mc else h))
        reached_50 := decide (50 ≤ pctAtHighest i (if h < mc then mc else h))
        last_checked := some now
        pair_url := match url with
          | some u => if u = "" then e.pair_url else some u
          | none => e.pair_url } := by
  obtain ⟨tok, ts, i0, h0, cur, cp, hpi, r50, lc, pu⟩ := e
  simp only [Entry.mk.injEq] at *
  subst hInit hHigh
  by_cases hcmp : h < mc <;>
    simp [applyObservation, pctAtHighest, hcmp]

/-- `applyObservation` preserves `EntryInv` and never lowers `reached_50`. -/
theorem applyObservation_inv (e : Entry) (mc : ℚ) (url : Option String) (now : String)
    (he : EntryInv e) :
    ∃ e2, applyObservation e mc url now = .ok e2 ∧ EntryInv e2 ∧
      (e.reached_50 = true → e2.reached_50 = true) := by
  obtain ⟨i, h, hInit, hHigh, hih, hposP, hnonposP⟩ := he
  refine ⟨_, applyObservation_ok e i h mc url now hInit hHigh, ?_, ?_⟩
  · have hhN : h ≤ (if h < mc then mc else h) := by
      by_cases hcmp : h < mc <;> simp [hcmp] <;> linarith
    refine ⟨i, if h < mc then mc else h, by simp [hInit], by simp, le_trans hih hhN, ?_, ?_⟩
    · intro hi
      obtain ⟨hhpi, hr⟩ := hposP hi
      constructor
      · simp only [hhpi]
        exact max_eq_right (pctAtHighest_mono hi hhN)
      · rfl
    · intro hi
      obtain ⟨hhpi, hr⟩ := hnonposP hi
      have hnp : pctAtHighest i (if h < mc then mc else h) ≤ 0 :=
        pctAtHighest_nonpos hi (le_trans hih hhN)
      constructor
      · simp only [hhpi]
        exact max_eq_left hnp
      · simp only [decide_eq_false_iff_not]
        intro hcon
        linarith
  · intro hr
    have hhN : h ≤ (if h < mc then mc else h) := by
      by_cases hcmp : h < mc <;> simp [hcmp] <;> linarith
    rcases le_or_lt i 0 with hi | hi
    · exact absurd hr (by simp [(hnonposP hi).2])
    · obtain ⟨hhpi, hrr⟩ := hposP hi
      rw [hrr] at hr
      simp only [decide_eq_true_eq] at hr
      simp only [decide_eq_true_eq]
      exact le_trans hr (pctAtHighest_mono hi hhN)

/-- Under `EntryInv`, the stored flag agrees with the stored running maximum. -/
theorem entryInv_reached_iff (e : Entry) (he : EntryInv e) :
    (e.reached_50 = true ↔ 50 ≤ e.highest_percent_increase) := by
  obtain ⟨i, h, hInit, hHigh, hih, hposP, hnonposP⟩ := he
  rcases le_or_lt i 0 with hi | hi
  · obtain ⟨hhpi, hr⟩ := hnonposP hi
    rw [hhpi, hr]
    constructor
    · intro hcon; cases hcon
    · intro hcon; linarith
  · obtain ⟨hhpi, hr⟩ := hposP hi
    rw [hhpi, hr]
    simp

/-- `RefreshInitial` establishes the consistency invariant. -/
theorem refresh_establishes_inv (tok ts now : String) (m : ℚ) (url : Option String) :
    EntryInv (refreshEntryMarketCap (freshEntry tok ts) (some m) url now) := by
  refine ⟨m, m, rfl, rfl, le_refl m, ?_, ?_⟩
  · intro _
    constructor
    · simp [refreshEntryMarketCap, pctAtHighest_self]
    · simp [refreshEntryMarketCap, pctAtHighest_self]
  · intro _
    constructor <;> rfl

/-- Characterization of the `_pick_best_pair` fold once a best pair is held:
the result extends the current winner by later pairs that are strictly
better, keeping the first of equally-liquid pairs. -/
theorem pickAux_some_spec (ps : List Pair) : ∀ q : Pair,
    ∃ r, pickAux (some q) (liqValue q) ps = some r ∧ liqValue q ≤ liqValue r ∧
      ((r = q ∧ ∀ p ∈ ps, liqValue p ≤ liqValue q) ∨
       (∃ pre post, ps = pre ++ r :: post ∧ liqValue q < liqValue r ∧
         (∀ p ∈ pre, liqValue p < liqValue r) ∧
         (∀ p ∈ post, liqValue p ≤ liqValue r))) := by
  induction ps with
  | nil =>
    intro q
    exact ⟨q, rfl, le_refl _, Or.inl ⟨rfl, by simp⟩⟩
  | cons p rest ih =>
    intro q
    by_cases hpq : liqValue q < liqValue p
    · obtain ⟨r, hr, hle, hc⟩ := ih p
      refine ⟨r, ?_, le_trans (le_of_lt hpq) hle, ?_⟩
      · simpa [pickAux, hpq] using hr
      · rcases hc with ⟨hrq, hall⟩ | ⟨pre, post, hsplit, hlt, hpre, hpost⟩
        · subst hrq
          exact Or.inr ⟨[], rest, by simp, hpq, by simp, hall⟩
        · refine Or.inr ⟨p :: pre, post, by rw [hsplit]; rfl, lt_trans hpq hlt, ?_, hpost⟩
          intro x hx
          rcases List.mem_cons.mp hx with hx | hx
          · subst hx; exact hlt
          · exact hpre x hx
    · push_neg at hpq
      obtain ⟨r, hr, hle, hc⟩ := ih q
      refine ⟨r, ?_, hle, ?_⟩
      · simpa [pickAux, not_lt.mpr hpq] using hr
      · rcases hc with ⟨hrq, hall⟩ | ⟨pre, post, hsplit, hlt, hpre, hpost⟩
        · refine Or.inl ⟨hrq, ?_⟩
          intro x hx
          rcases List.mem_cons.mp hx with hx | hx
          · subst hx; exact hpq
          · exact hall x hx
        · refine Or.inr ⟨p :: pre, post, by rw [hsplit]; rfl, hlt, ?_, hpost⟩
          intro x hx
          rcases List.mem_cons.mp hx with hx | hx
          · subst hx; exact lt_of_le_of_lt hpq hlt
          · exact hpre x hx

/-- Full characterization of `_pick_best_pair`: `None` exactly when every
liquidity value is at most the `-1.0` sentinel, otherwise the first pair
attaining the maximum liquidity value. -/
theorem pickBest_spec (ps : List Pair) :
    (pickBestPair ps = none ↔ ∀ p ∈ ps, liqValue p ≤ -1) ∧
    (∀ q, pickBestPair ps = some q →
      -1 < liqValue q ∧
      ∃ pre post, ps = pre ++ q :: post ∧
        (∀ p ∈ pre, liqValue p < liqValue q) ∧
        (∀ p ∈ post, liqValue p ≤ liqValue q)) := by
  induction ps with
  | nil =>
    constructor
    · simp [pickBestPair, pickAux]
    · intro q hq
      simp [pickBestPair, pickAux] at hq
  | cons p rest ih =>
    by_cases hp : (-1 : ℚ) < liqValue p
    · obtain ⟨r, hr, hle, hc⟩ := pickAux_some_spec rest p
      have hpick : pickBestPair (p :: rest) = some r := by
        simpa [pickBestPair, pickAux, hp] using hr
      constructor
      · rw [hpick]
        constructor
        · intro hcon; cases hcon
        · intro hall
          exact absurd (hall p (List.mem_cons_self p rest)) (not_le.mpr hp)
      · intro q hq
        rw [hpick] at hq
        injection hq with hq
        subst hq
        refine ⟨lt_of_lt_of_le hp hle, ?_⟩
        rcases hc with ⟨hrq, hall⟩ | ⟨pre, post, hsplit, hlt, hpre, hpost⟩
        · subst hrq
          exact ⟨[], rest, rfl, by simp, hall⟩
        · refine ⟨p :: pre, post, by rw [hsplit]; rfl, ?_, hpost⟩
          intro x hx
          rcases List.mem_cons.mp hx with hx | hx
          · subst hx; exact hlt
          · exact hpre x hx
    · push_neg at hp
      have hpick : pickBestPair (p :: rest) = pickBestPair rest := by
        simp [pickBestPair, pickAux, not_lt.mpr hp]
      constructor
      · rw [hpick, ih.1]
        constructor
        · intro hall x hx
          rcases List.mem_cons.mp hx with hx | hx
          · subst hx; exact hp
          · exact hall x hx
        · intro hall x hx
          exact hall x (List.mem_cons_of_mem p hx)
      · intro q hq
        rw [hpick] at hq
        obtain ⟨hlq, pre, post, hsplit, hpre, hpost⟩ := ih.2 q hq
        refine ⟨hlq, p :: pre, post, by rw [hsplit]; rfl, ?_, hpost⟩
        intro x hx
        rcases List.mem_cons.mp hx with hx | hx
        · subst hx; exact lt_of_le_of_lt hp hlq
        · exact hpre x hx

/-- Initialization keeps the candidate token as the entry token. -/
theorem refreshFresh_token (tok posted now : String) (mc : Option ℚ) (url : Option String) :
    (refreshEntryMarketCap (freshEntry tok posted) mc url now).token = tok := by
  cases mc <;> rfl

/-- The handler loop run from a state with an active entry whose token does
not occur in the remaining distinct candidates, when none of their fetches
raises: the final active entry is for the last candidate and the history
grows by the superseded entries in order. -/
theorem processTokens_from (fetch : String → FetchOutcome) (posted now : String) :
    ∀ (l : List String) (e : Entry) (hist : List Entry),
      l.Nodup → e.token ∉ l → l ≠ [] → (∀ t ∈ l, fetch t ≠ .raised) →
      ∃ e2 h2, processTokens fetch posted now ⟨some e, hist⟩ l = .ok ⟨some e2, h2⟩ ∧
        l.getLast? = some e2.token ∧
        h2.map Entry.token = hist.map Entry.token ++ e.token :: l.dropLast := by
  intro l
  induction l with
  | nil =>
    intro e hist _ _ hne _
    exact absurd rfl hne
  | cons t l ih =>
    intro e hist hnd hmem _ hnr
    have hne : e.token ≠ t := by
      intro hcon
      exact hmem (hcon ▸ List.mem_cons_self t l)
    obtain ⟨mc, url, hf⟩ : ∃ mc url, fetch t = .returned mc url := by
      cases hft : fetch t with
      | raised => exact absurd hft (hnr t (List.mem_cons_self t l))
      | returned mc url => exact ⟨mc, url, rfl⟩
    have hstep : processTokens fetch posted now ⟨some e, hist⟩ (t :: l) =
        processTokens fetch posted now
          ⟨some (refreshEntryMarketCap (freshEntry t posted) mc url now), hist ++ [e]⟩ l := by
      simp [processTokens, processToken, hne, hf]
    rcases l with _ | ⟨x, xs⟩
    · refine ⟨refreshEntryMarketCap (freshEntry t posted) mc url now, hist ++ [e], ?_, ?_, ?_⟩
      · rw [hstep]
        rfl
      · simp [refreshFresh_token]
      · simp
    · have hnotin : (refreshEntryMarketCap (freshEntry t posted) mc url now).token ∉ x :: xs := by
        rw [refreshFresh_token]
        exact (List.nodup_cons.mp hnd).1
      obtain ⟨e2, h2, hrun, hlast, hmap⟩ :=
        ih (refreshEntryMarketCap (freshEntry t posted) mc url now) (hist ++ [e])
          (List.nodup_cons.mp hnd).2 hnotin (by simp)
          (fun t2 ht2 => hnr t2 (List.mem_cons_of_mem t ht2))
      refine ⟨e2, h2, by rw [hstep]; exact hrun, ?_, ?_⟩
      · rw [List.getLast?_cons_cons]
        exact hlast
      · rw [hmap, refreshFresh_token]
        simp [List.dropLast]

/-! ## Claim theorems -/

/-- C1: evaluation of one monitor cycle on the two kinds of transient fetch
failure.  A fetch that merely returns no market cap ("no pair found", no
parsable cap) leaves the state unchanged and the loop continues; but a fetch
that raises (network error, timeout, malformed API response) propagates out
of the loop body and terminates the monitor task - the state is unchanged,
yet the loop does not retry, contradicting the claim. -/
theorem c1_transient_failure_eval (st : MonState) (e : Entry) (now : String)
    (url : Option String) (he : st.entry = some e) (ht : e.token ≠ "") :
    monitorCycle st .raised now = .error st ∧
    monitorCycle st (.returned none url) now = .ok st := by
  constructor <;> simp [monitorCycle, he, ht]

/-- Witness for C1 at a concrete state. -/
theorem c1_transient_failure_eval_witness :
    monitorCycle ⟨some (freshEntry "TOK" "ts"), none⟩ .raised "now" =
      .error ⟨some (freshEntry "TOK" "ts"), none⟩ ∧
    monitorCycle ⟨some (freshEntry "TOK" "ts"), none⟩ (.returned none none) "now" =
      .ok ⟨some (freshEntry "TOK" "ts"), none⟩ :=
  c1_transient_failure_eval _ (freshEntry "TOK" "ts") "now" none rfl (by decide)

/-- C2: the locked update on a fresh entry (both market-cap fields null, the
shape the handler leaves behind when the initial fetch fails) raises the
Python TypeError at the comparison of the observed float with the stored
None, after having mutated only `initial_market_cap`; the entry is neither
fully updated nor persisted, contradicting the claim. -/
theorem c2_null_initial_typeerror (tok ts now : String) (mc : ℚ) (url : Option String) :
    applyObservation (freshEntry tok ts) mc url now =
      .typeErr { freshEntry tok ts with initial_market_cap := some mc } := rfl

/-- C4 counterexample: the handler performs its initial market-cap fetch
while holding the shared lock, already for a single processed candidate. -/
theorem c4_locked_fetch_counterexample : fetchWhileLocked (handlerTrace 1) = true := by
  decide

/-- C4 amended: the monitor loop never fetches while holding the lock, but
the ingestion handler performs one fetch per created entry inside its locked
section, so any message creating at least one entry fetches under the lock. -/
theorem c4_lock_discipline :
    ∀ (hasEntry hasToken fetchReturnedCap : Bool) (k : ℕ),
      fetchWhileLocked (monitorCycleTrace hasEntry hasToken fetchReturnedCap) = false ∧
      fetchWhileLocked (handlerTrace (k + 1)) = true := by
  intro a b c k
  constructor
  · cases a <;> cases b <;> cases c <;> decide
  · simp [handlerTrace, fetchWhileLocked, fetchWhileLockedAux, List.replicate_succ]

/-- C6 counterexample: on the cited message the classifier does not return
the candidates in text-match order (ticker first); the hex address comes
first because the handler concatenates all address matches before all ticker
matches. -/
theorem c6_order_counterexample :
    extractTokens "buy $ABC now 0xAbCdEf0123456789AbCdEf0123456789AbCdEf01" ≠
      ["ABC", "0xAbCdEf0123456789AbCdEf0123456789AbCdEf01"] := by
  decide

/-- C6 amended: the classifier groups candidates by pattern kind - all hex
addresses (in text order), then all tickers, then all base58 mints - so the
cited message yields exactly two candidates with the hex address first and
the ticker second, processed in that order. -/
theorem c6_classifier_grouped_order :
    extractTokens "buy $ABC now 0xAbCdEf0123456789AbCdEf0123456789AbCdEf01" =
      ["0xAbCdEf0123456789AbCdEf0123456789AbCdEf01", "ABC"] := by
  decide

/-- C7 counterexample: a nonempty pair list whose only liquidity value is
below the -1.0 sentinel makes `_pick_best_pair` return `None` instead of the
pair with the greatest liquidity value. -/
theorem c7_negative_liquidity_counterexample :
    pickBestPair [(⟨some (.vnum (-2)), none, none, none⟩ : Pair)] = none ∧
    [(⟨some (.vnum (-2)), none, none, none⟩ : Pair)] ≠ [] := by
  constructor
  · rfl
  · intro h
    cases h

/-- C7 amended: pair selection returns `None` exactly when every liquidity
value is at most -1 (in particular for the empty list, where the fetch
result is (null, null)); otherwise it returns the first pair attaining the
maximum liquidity value - so whenever liquidity values are nonnegative (as
when missing or non-numeric values are read as 0) the original claim holds. -/
theorem c7_pair_selection (ps : List Pair) :
    (pickBestPair ps = none ↔ ∀ p ∈ ps, liqValue p ≤ -1) ∧
    (∀ q, pickBestPair ps = some q →
      -1 < liqValue q ∧
      ∃ pre post, ps = pre ++ q :: post ∧
        (∀ p ∈ pre, liqValue p < liqValue q) ∧
        (∀ p ∈ post, liqValue p ≤ liqValue q)) ∧
    fetchFromPairs [] = (none, none) :=
  ⟨(pickBest_spec ps).1, (pickBest_spec ps).2, rfl⟩

/-- Witness for C7 at a concrete two-pair list with distinct liquidities. -/
theorem c7_pair_selection_witness :
    pickBestPair [(⟨some (.vnum 5), none, none, none⟩ : Pair),
                  (⟨some (.vnum 7), none, none, some "u"⟩ : Pair)] =
      some (⟨some (.vnum 7), none, none, some "u"⟩ : Pair) ∧
    (-1 < liqValue (⟨some (.vnum 7), none, none, some "u"⟩ : Pair) ∧
      ∃ pre post,
        [(⟨some (.vnum 5), none, none, none⟩ : Pair),
         (⟨some (.vnum 7), none, none, some "u"⟩ : Pair)] =
          pre ++ (⟨some (.vnum 7), none, none, some "u"⟩ : Pair) :: post ∧
        (∀ p ∈ pre, liqValue p < liqValue (⟨some (.vnum 7), none, none, some "u"⟩ : Pair)) ∧
        (∀ p ∈ post, liqValue p ≤ liqValue (⟨some (.vnum 7), none, none, some "u"⟩ : Pair))) :=
  ⟨by decide,
   (c7_pair_selection [(⟨some (.vnum 5), none, none, none⟩ : Pair),
                       (⟨some (.vnum 7), none, none, some "u"⟩ : Pair)]).2.1 _ (by decide)⟩

/-- C8 counterexample: a pair whose `marketCap` is present but non-numeric
and whose `fdv` is numeric parses to `None` in the code, while the claim
(marketCap if present and numeric, else fdv if present and numeric) gives
the fdv value. -/
theorem c8_nonnumeric_marketcap_counterexample :
    parseMarketCap ⟨none, some (.vraw true none), some (.vnum 123), none⟩ = none ∧
    specParseMarketCap ⟨none, some (.vraw true none), some (.vnum 123), none⟩ = some 123 :=
  ⟨rfl, rfl⟩

/-- C8 amended: the extracted market cap is the parse of the `marketCap`
field whenever that field is present (null counts as absent), `fdv` being
consulted only when `marketCap` is absent; the spec rule is recovered
exactly when `marketCap` is absent or numeric. -/
theorem c8_marketcap_parse (p : Pair) :
    (p.marketCap = none → parseMarketCap p = p.fdv.bind pyFloat) ∧
    (∀ v, p.marketCap = some v → parseMarketCap p = pyFloat v) ∧
    ((∀ t, p.marketCap ≠ some (.vraw t none)) → parseMarketCap p = specParseMarketCap p) := by
  refine ⟨?_, ?_, ?_⟩
  · intro h
    cases hf : p.fdv <;> simp [parseMarketCap, h, hf]
  · intro v h
    simp [parseMarketCap, h]
  · intro h
    cases hm : p.marketCap with
    | none => cases hf : p.fdv <;> simp [parseMarketCap, specParseMarketCap, hm, hf]
    | some v =>
      cases v with
      | vnum q => simp [parseMarketCap, specParseMarketCap, hm, pyFloat]
      | vraw t pq =>
        cases pq with
        | none => exact absurd hm (h t)
        | some q => simp [parseMarketCap, specParseMarketCap, hm, pyFloat]

/-- Witness for C8 at a pair with absent marketCap and numeric fdv. -/
theorem c8_marketcap_parse_witness :
    (⟨none, none, some (.vnum 7), none⟩ : Pair).marketCap = none ∧
    parseMarketCap (⟨none, none, some (.vnum 7), none⟩ : Pair) =
      ((⟨none, none, some (.vnum 7), none⟩ : Pair).fdv.bind pyFloat) :=
  ⟨rfl, (c8_marketcap_parse _).1 rfl⟩

/-- C10 counterexample: a legacy-shaped current-state file can make the
loader return a JSON value that is not a dictionary (here the number 42),
refuting the claim that the result is always an entry dictionary or None. -/
theorem c10_nondict_counterexample :
    loadCurrent (.parsed (.obj [("items", .obj [("a", .num 42)]), ("tokens", .arr [.str "a"])])) =
      some (.num 42) ∧
    ∀ kvs, Json.num 42 ≠ Json.obj kvs :=
  ⟨rfl, fun _ h => Json.noConfusion h⟩

/-- C10 amended: both loaders are total - a missing or unparsable file and
any internal error yield the documented defaults (None and the empty list),
and any successful body run is returned as is; the current-state result is
an arbitrary selected JSON value or None, while the history result is
always a list. -/
theorem c10_loaders_total :
    loadCurrent .missing = none ∧ loadCurrent .unparsable = none ∧
    (∀ j, loadCurrentBody j = .error () → loadCurrent (.parsed j) = none) ∧
    (∀ j r, loadCurrentBody j = .ok r → loadCurrent (.parsed j) = r) ∧
    loadHistory .missing = [] ∧ loadHistory .unparsable = [] ∧
    (∀ j, loadHistoryBody j = none → loadHistory (.parsed j) = []) ∧
    (∀ j xs, loadHistoryBody j = some xs → loadHistory (.parsed j) = xs) := by
  refine ⟨rfl, rfl, ?_, ?_, rfl, rfl, ?_, ?_⟩
  · intro j h
    simp [loadCurrent, h]
  · intro j r h
    simp [loadCurrent, h]
  · intro j h
    simp [loadHistory, h]
  · intro j xs h
    simp [loadHistory, h]

/-- Witness for C10 at a file whose body raises inside the try-block. -/
theorem c10_loaders_total_witness :
    loadCurrentBody (.obj [("items", .obj [("a", .num 1)]), ("tokens", .num 3)]) = .error () ∧
    loadCurrent (.parsed (.obj [("items", .obj [("a", .num 1)]), ("tokens", .num 3)])) = none :=
  ⟨rfl, c10_loaders_total.2.2.1 _ rfl⟩

/-- C3: for every entry initialized by the code (RefreshInitial, the only
path after which the locked update completes), the consistency invariant
holds and is preserved by every sequence of observations; after any such
sequence the stored flag equals (highest_percent_increase is at least 50),
and a flag once true never reverts to false. -/
theorem c3_reached50_invariant :
    (∀ (tok ts now : String) (m : ℚ) (url : Option String),
       EntryInv (refreshEntryMarketCap (freshEntry tok ts) (some m) url now)) ∧
    (∀ e : Entry, EntryInv e → ∀ obs : List (ℚ × Option String × String),
       ∃ e2, runObservations e obs = some e2 ∧ EntryInv e2 ∧
         (e2.reached_50 = true ↔ 50 ≤ e2.highest_percent_increase) ∧
         (e.reached_50 = true → e2.reached_50 = true)) := by
  constructor
  · exact refresh_establishes_inv
  · intro e he obs
    induction obs generalizing e with
    | nil => exact ⟨e, rfl, he, entryInv_reached_iff e he, fun h => h⟩
    | cons ob rest ih =>
      obtain ⟨mc, url, now⟩ := ob
      obtain ⟨e1, hstep, hinv1, hmono1⟩ := applyObservation_inv e mc url now he
      obtain ⟨e2, hrun, hinv2, hiff, hmono2⟩ := ih e1 hinv1
      exact ⟨e2, by simp [runObservations, hstep, hrun], hinv2, hiff,
        fun hr => hmono2 (hmono1 hr)⟩

/-- Witness for C3: a refreshed entry followed by two concrete observations. -/
theorem c3_reached50_invariant_witness :
    ∃ e2, runObservations (refreshEntryMarketCap (freshEntry "T" "ts") (some 1000) none "a")
        [(1500, none, "b"), (1200, none, "c")] = some e2 ∧ EntryInv e2 ∧
      (e2.reached_50 = true ↔ 50 ≤ e2.highest_percent_increase) ∧
      ((refreshEntryMarketCap (freshEntry "T" "ts") (some 1000) none "a").reached_50 = true →
        e2.reached_50 = true) :=
  c3_reached50_invariant.2 _ (c3_reached50_invariant.1 "T" "ts" "a" 1000 none) _

/-- C5 counterexample: the distinct tokens AAA, BBB, CCC are submitted (AAA
and BBB in one message, where the BBB fetch raises and the per-message
handler catches the exception; CCC in the next message).  After the first
message the AAA entry is still active although BBB was the most recently
submitted distinct token, and after the second message the AAA entry has
been appended to the history twice - refuting both the most-recent-token
and the exactly-once parts of the claim. -/
theorem c5_raising_fetch_counterexample :
    processTokens (fun t => if t = "BBB" then FetchOutcome.raised else .returned none none)
        "p" "n" ⟨none, []⟩ ["AAA", "BBB"] =
      .error ⟨some (freshEntry "AAA" "p"), [freshEntry "AAA" "p"]⟩ ∧
    processTokens (fun t => if t = "BBB" then FetchOutcome.raised else .returned none none)
        "p" "n" ⟨some (freshEntry "AAA" "p"), [freshEntry "AAA" "p"]⟩ ["CCC"] =
      .ok ⟨some (freshEntry "CCC" "p"), [freshEntry "AAA" "p", freshEntry "AAA" "p"]⟩ :=
  ⟨rfl, rfl⟩

/-- C5 amended: provided every fetch made while processing returns (raises
no exception), processing a nonempty sequence of distinct candidate tokens
from the empty state completes, leaves the entry of the last token active,
and the history holds exactly the superseded entries, one per earlier token,
in submission order. -/
theorem c5_ingestion_sequence (fetch : String → FetchOutcome)
    (posted now : String) (toks : List String) (hnd : toks.Nodup) (hne : toks ≠ [])
    (hnr : ∀ t ∈ toks, fetch t ≠ .raised) :
    ∃ e2 h2, processTokens fetch posted now ⟨none, []⟩ toks = .ok ⟨some e2, h2⟩ ∧
      toks.getLast? = some e2.token ∧
      h2.map Entry.token = toks.dropLast := by
  rcases toks with _ | ⟨t, l⟩
  · exact absurd rfl hne
  · obtain ⟨mc, url, hf⟩ : ∃ mc url, fetch t = .returned mc url := by
      cases hft : fetch t with
      | raised => exact absurd hft (hnr t (List.mem_cons_self t l))
      | returned mc url => exact ⟨mc, url, rfl⟩
    have hstep : processTokens fetch posted now ⟨none, []⟩ (t :: l) =
        processTokens fetch posted now
          ⟨some (refreshEntryMarketCap (freshEntry t posted) mc url now), []⟩ l := by
      simp [processTokens, processToken, hf]
    rcases l with _ | ⟨x, xs⟩
    · exact ⟨refreshEntryMarketCap (freshEntry t posted) mc url now, [],
        by rw [hstep]; rfl, by simp [refreshFresh_token], by simp⟩
    · have hnotin : (refreshEntryMarketCap (freshEntry t posted) mc url now).token ∉ x :: xs := by
        rw [refreshFresh_token]
        exact (List.nodup_cons.mp hnd).1
      obtain ⟨e2, h2, hrun, hlast, hmap⟩ :=
        processTokens_from fetch posted now (x :: xs)
          (refreshEntryMarketCap (freshEntry t posted) mc url now) []
          (List.nodup_cons.mp hnd).2 hnotin (by simp)
          (fun t2 ht2 => hnr t2 (List.mem_cons_of_mem t ht2))
      refine ⟨e2, h2, by rw [hstep]; exact hrun, ?_, ?_⟩
      · rw [List.getLast?_cons_cons]
        exact hlast
      · rw [hmap, refreshFresh_token]
        simp [List.dropLast]

/-- Witness for C5 at three concrete distinct tokens with returning fetches. -/
theorem c5_ingestion_sequence_witness :
    (["AAA", "BBB", "CC"] : List String).Nodup ∧
    (∀ t ∈ (["AAA", "BBB", "CC"] : List String),
      (fun _ => FetchOutcome.returned none none) t ≠ FetchOutcome.raised) ∧
    ∃ e2 h2, processTokens (fun _ => FetchOutcome.returned none none) "p" "n" ⟨none, []⟩
        ["AAA", "BBB", "CC"] = .ok ⟨some e2, h2⟩ ∧
      (["AAA", "BBB", "CC"] : List String).getLast? = some e2.token ∧
      h2.map Entry.token = (["AAA", "BBB", "CC"] : List String).dropLast :=
  ⟨by decide, by decide,
   c5_ingestion_sequence (fun _ => FetchOutcome.returned none none) "p" "n" _
     (by decide) (by decide) (by decide)⟩

/-- The locked update on an entry whose `highest_market_cap` is set, with
the initial value defaulted to the observation as the source does. -/
theorem applyObservation_ok_getD (e : Entry) (hh mc : ℚ) (url : Option String) (now : String)
    (hHigh : e.highest_market_cap = some hh) :
    applyObservation e mc url now = .ok
      { e with
        initial_market_cap := some (e.initial_market_cap.getD mc)
        highest_market_cap := some (if hh < mc then mc else hh)
        current_market_cap := some mc
        current_percentage := formatPercent (round4
          (if e.initial_market_cap.getD mc ≠ 0 then
            ((mc - e.initial_market_cap.getD mc) / e.initial_market_cap.getD mc) * 100 else 0))
        highest_percent_increase := max e.highest_percent_increase
          (pctAtHighest (e.initial_market_cap.getD mc) (if hh < mc then mc else hh))
        reached_50 := decide (50 ≤
          pctAtHighest (e.initial_market_cap.getD mc) (if hh < mc then mc else hh))
        last_checked := some now
        pair_url := match url with
          | some u => if u = "" then e.pair_url else some u
          | none => e.pair_url } := by
  obtain ⟨tok, ts, i0, h0, cur, cp, hpi, r50, lc, pu⟩ := e
  simp only [Entry.mk.injEq] at *
  subst hHigh
  rcases i0 with _ | i <;> by_cases hcmp : hh < mc <;>
    simp [applyObservation, pctAtHighest, hcmp]

/-- C9: after every completing locked update the stored percentage string is
exactly the formatted, 4-decimal-rounded signed percentage of the stored
current market cap relative to the stored initial market cap, the
zero-percent string when the initial value was null or is zero, and it
always carries an explicit sign and two decimal places. -/
theorem c9_percentage_recompute (e : Entry) (mc : ℚ) (url : Option String) (now : String)
    (e2 : Entry) (h : applyObservation e mc url now = .ok e2) :
    ∃ i, e2.initial_market_cap = some i ∧ e2.current_market_cap = some mc ∧
      (i ≠ 0 → e2.current_percentage = formatPercent (round4 (((mc - i) / i) * 100))) ∧
      (i = 0 → e2.current_percentage = formatPercent 0) ∧
      (e.initial_market_cap = none → e2.current_percentage = formatPercent 0) ∧
      ∃ (b : Bool) (n f : ℕ), f < 100 ∧
        e2.current_percentage = (if b then "-" else "+") ++ toString n ++ "." ++ pad2 f ++ "%" := by
  rcases hHigh : e.highest_market_cap with _ | hh
  · rcases hInit : e.initial_market_cap with _ | i <;>
      · obtain ⟨tok, ts, i0, h0, cur, cp, hpi, r50, lc, pu⟩ := e
        simp only [Entry.mk.injEq] at hInit hHigh
        subst hInit hHigh
        simp [applyObservation] at h
  · rw [applyObservation_ok_getD e hh mc url now hHigh] at h
    injection h with h
    subst h
    refine ⟨e.initial_market_cap.getD mc, by simp, by simp, ?_, ?_, ?_, ?_⟩
    · intro hi
      simp [hi]
    · intro hi
      simp [hi, round4_zero]
    · intro hnone
      have hz : (if e.initial_market_cap.getD mc ≠ 0 then
          ((mc - e.initial_market_cap.getD mc) / e.initial_market_cap.getD mc) * 100 else 0) = 0 := by
        rw [hnone]
        by_cases hmc : mc = 0 <;> simp [hmc]
      simp only [hz, round4_zero]
    · simpa using formatPercent_shape (round4
        (if e.initial_market_cap.getD mc ≠ 0 then
          ((mc - e.initial_market_cap.getD mc) / e.initial_market_cap.getD mc) * 100 else 0))

/-- Witness for C9 at the documented scenario: initial 1000, observation 1500. -/
theorem c9_percentage_recompute_witness :
    applyObservation (refreshEntryMarketCap (freshEntry "T" "ts") (some 1000) none "a")
        1500 none "b" =
      .ok { token := "T", time_posted := "ts", initial_market_cap := some 1000,
            highest_market_cap := some 1500, current_market_cap := some 1500,
            current_percentage := "+50.00%", highest_percent_increase := 50,
            reached_50 := true, last_checked := some "b", pair_url := none } ∧
    ∃ i,
      ({ token := "T", time_posted := "ts", initial_market_cap := some 1000,
         highest_market_cap := some 1500, current_market_cap := some 1500,
         current_percentage := "+50.00%", highest_percent_increase := 50,
         reached_50 := true, last_checked := some "b", pair_url := none } : Entry).initial_market_cap =
        some i ∧
      ({ token := "T", time_posted := "ts", initial_market_cap := some 1000,
         highest_market_cap := some 1500, current_market_cap := some 1500,
         current_percentage := "+50.00%", highest_percent_increase := 50,
         reached_50 := true, last_checked := some "b", pair_url := none } : Entry).current_market_cap =
        some 1500 ∧
      (i ≠ 0 →
        ({ token := "T", time_posted := "ts", initial_market_cap := some 1000,
           highest_market_cap := some 1500, current_market_cap := some 1500,
           current_percentage := "+50.00%", highest_percent_increase := 50,
           reached_50 := true, last_checked := some "b", pair_url := none } : Entry).current_percentage =
          formatPercent (round4 (((1500 - i) / i) * 100))) ∧
      (i = 0 →
        ({ token := "T", time_posted := "ts", initial_market_cap := some 1000,
           highest_market_cap := some 1500, current_market_cap := some 1500,
           current_percentage := "+50.00%", highest_percent_increase := 50,
           reached_50 := true, last_checked := some "b", pair_url := none } : Entry).current_percentage =
          formatPercent 0) ∧
      ((refreshEntryMarketCap (freshEntry "T" "ts") (some 1000) none "a").initial_market_cap = none →
        ({ token := "T", time_posted := "ts", initial_market_cap := some 1000,
           highest_market_cap := some 1500, current_market_cap := some 1500,
           current_percentage := "+50.00%", highest_percent_increase := 50,
           reached_50 := true, last_checked := some "b", pair_url := none } : Entry).current_percentage =
          formatPercent 0) ∧
      ∃ (b : Bool) (n f : ℕ), f < 100 ∧
        ({ token := "T", time_posted := "ts", initial_market_cap := some 1000,
           highest_market_cap := some 1500, current_market_cap := some 1500,
           current_percentage := "+50.00%", highest_percent_increase := 50,
           reached_50 := true, last_checked := some "b", pair_url := none } : Entry).current_percentage =
          (if b then "-" else "+") ++ toString n ++ "." ++ pad2 f ++ "%" := by
  have h : applyObservation (refreshEntryMarketCap (freshEntry "T" "ts") (some 1000) none "a")
      1500 none "b" =
      .ok { token := "T", time_posted := "ts", initial_market_cap := some 1000,
            highest_market_cap := some 1500, current_market_cap := some 1500,
            current_percentage := "+50.00%", highest_percent_increase := 50,
            reached_50 := true, last_checked := some "b", pair_url := none } := by
    norm_num [applyObservation, refreshEntryMarketCap, freshEntry, round4, round_eq,
      formatPercent, pad2]
    decide
  exact ⟨h, c9_percentage_recompute _ 1500 none "b" _ h⟩
